import Mathlib

/-!
Verification development for the vocabulary-learning client.

The embedding translates the exercise generator (createExercises), the
answer evaluation logic of handleAnswer, the session experience-point
accounting, the matching sub-state machine (handleMatch in the exercise
renderer), and the Word Rush arcade round logic (prepareRound, handleAnswer)
into executable Lean definitions.  Randomized option shuffling
(a JS sort with a random comparator, which always returns a permutation of
its input) is modelled by an explicit shuffle parameter
`sh : Nat -> List String -> List String`: each shuffle call site consumes a
fresh index, mirroring independent random draws.  JS `indexOf` is modelled
by `List.indexOf` (the two agree whenever the element occurs in the list).
-/

/-- Mirrors the VocabularyItem interface of types.ts (all ten fields). -/
structure VocabularyItem where
  id : String
  word : String
  pronunciation : String
  definition : String
  vietnameseDefinition : String
  partOfSpeech : String
  exampleSentence : String
  exampleSentenceBlank : String
  synonyms : List String
  imageKeyword : String
deriving DecidableEq

/-- Mirrors the ExerciseType enum of types.ts. -/
inductive ExerciseType where
  | Flashcard
  | GuessMeaning
  | GuessWord
  | FillBlank
  | Matching
  | Listening
deriving DecidableEq

/-- Mirrors the matchingPairs entry shape of types.ts. -/
structure MatchPair where
  wordId : String
  definition : String
deriving DecidableEq

/-- Mirrors the Exercise interface of types.ts; the optional TS fields
become Option fields. -/
structure Exercise where
  id : String
  type : ExerciseType
  targetWordId : String
  question : String
  options : Option (List String)
  correctOptionIndex : Option Nat
  matchingPairs : Option (List MatchPair)
deriving DecidableEq

/-- Mirrors the body of the vocab.forEach loop in createExercises: the five
exercises pushed for one item.  `shuffleVN` is the random shuffle applied to
the Vietnamese-definition options (computed once and reused by both the
guess-meaning and the listening exercise, exactly as the source reuses the
optionsVN array), `shuffleEN` the one applied to the headword options. -/
def itemExercises (vocab : List VocabularyItem)
    (shuffleVN shuffleEN : List String → List String)
    (item : VocabularyItem) : List Exercise :=
  let distractors :=
    ((vocab.filter (fun v => v.id != item.id)).map
      (fun v => v.vietnameseDefinition)).take 3
  let optionsVN := shuffleVN (item.vietnameseDefinition :: distractors)
  let wordDistractors :=
    ((vocab.filter (fun v => v.id != item.id)).map (fun v => v.word)).take 3
  let optionsEN := shuffleEN (item.word :: wordDistractors)
  [ ⟨"fc-" ++ item.id, ExerciseType.Flashcard, item.id, item.word,
      none, none, none⟩,
    ⟨"gm-" ++ item.id, ExerciseType.GuessMeaning, item.id, item.word,
      some optionsVN, some (optionsVN.indexOf item.vietnameseDefinition),
      none⟩,
    ⟨"gw-" ++ item.id, ExerciseType.GuessWord, item.id,
      item.vietnameseDefinition,
      some optionsEN, some (optionsEN.indexOf item.word), none⟩,
    ⟨"fb-" ++ item.id, ExerciseType.FillBlank, item.id,
      item.exampleSentenceBlank, none, none, none⟩,
    ⟨"ls-" ++ item.id, ExerciseType.Listening, item.id, item.word,
      some optionsVN, some (optionsVN.indexOf item.vietnameseDefinition),
      none⟩ ]

/-- Iteration of the vocab.forEach loop of createExercises; `k` counts the
items already processed so that each shuffle call site gets a fresh draw
from `sh`. -/
def createExercisesAux (sh : Nat → List String → List String)
    (vocab : List VocabularyItem) : Nat → List VocabularyItem → List Exercise
  | _, [] => []
  | k, item :: rest =>
      itemExercises vocab (sh (2 * k)) (sh (2 * k + 1)) item ++
        createExercisesAux sh vocab (k + 1) rest

/-- Mirrors the final exercises.push of createExercises: the single grouped
matching exercise over the whole vocabulary set. -/
def matchingExercise (vocab : List VocabularyItem) : Exercise :=
  ⟨"match-all", ExerciseType.Matching, "all", "Ghép từ với nghĩa",
    none, none, some (vocab.map (fun v => ⟨v.id, v.vietnameseDefinition⟩))⟩

/-- Mirrors createExercises: the per-item flashcard, guess-meaning,
guess-word, fill-blank and listening exercises in input order, followed by
the single matching exercise. -/
def createExercises (sh : Nat → List String → List String)
    (vocab : List VocabularyItem) : List Exercise :=
  createExercisesAux sh vocab 0 vocab ++ [matchingExercise vocab]

/-- Models the JS expression s.toLowerCase().trim(): lower-case every
character, then drop whitespace from both ends.  Implemented over the
character list of the string so that it is kernel-computable. -/
def lowerTrim (s : String) : String :=
  ⟨((((s.data.map Char.toLower).dropWhile Char.isWhitespace).reverse.dropWhile
      Char.isWhitespace).reverse)⟩

/-- Mirrors the isCorrect computation of handleAnswer: the target item is
looked up by targetWordId, each kind compares the submitted answer as the
source does.  The flashcard branch of handleAnswer advances without ever
computing correctness; it is modelled as false here and never consulted by
the controller.  The function is total, so evaluation never throws. -/
def evalAnswer (vocabList : List VocabularyItem) (ex : Exercise)
    (answer : String) : Bool :=
  let targetVocab := vocabList.find? (fun v => v.id == ex.targetWordId)
  match ex.type with
  | ExerciseType.Flashcard => false
  | ExerciseType.Matching => answer == "COMPLETE"
  | ExerciseType.FillBlank =>
    match targetVocab with
    | some tv => lowerTrim answer == lowerTrim tv.word
    | none => false
  | ExerciseType.Listening =>
    match targetVocab with
    | some tv => answer == tv.vietnameseDefinition
    | none => false
  | ExerciseType.GuessMeaning =>
    match targetVocab with
    | some tv => answer == tv.vietnameseDefinition
    | none => false
  | ExerciseType.GuessWord =>
    match targetVocab with
    | some tv => answer == tv.word
    | none => false

/-- Experience points handleAnswer adds to UserState for one submitted
answer: the flashcard branch returns before any scoring, a correct answer
adds 10, an incorrect one adds nothing. -/
def answerXp (ex : Exercise) (isCorrect : Bool) : Nat :=
  if ex.type = ExerciseType.Flashcard then 0 else if isCorrect then 10 else 0

/-- Total experience points incrementally added to UserState over a session
in which every evaluated answer is correct on the first attempt. -/
def sessionXpAllCorrect (exs : List Exercise) : Nat :=
  exs.foldl (fun xp ex => xp + answerXp ex true) 0

/-- Mirrors the summary banner of the session-complete screen, which shows
exercises.length * 10 as the experience-point total. -/
def sessionSummaryXp (exs : List Exercise) : Nat :=
  exs.length * 10

/-- State of the matching sub-state machine kept by the exercise renderer:
the confirmed ids (wordIds and definition strings), and at most one pending
selection per side. -/
structure MatchState where
  matched : List String
  selLeft : Option String
  selRight : Option String
deriving DecidableEq

/-- Which column of the matching exercise a click lands in. -/
inductive MatchSide where
  | left
  | right
deriving DecidableEq

/-- Mirrors handleMatch of the exercise renderer.  Returns the new state
and whether the sentinel COMPLETE answer was submitted.  An id already in
matchedPairs is ignored.  The JS truthiness test on the two selections is
mirrored by the emptiness guard: an empty-string selection does not count
as present.  The delayed clearing of a failed match is modelled as
immediate, which is the state the machine is in once the delay elapses. -/
def handleMatch (pairs : List MatchPair) (st : MatchState) (id : String)
    (side : MatchSide) : MatchState × Bool :=
  if id ∈ st.matched then (st, false)
  else
    let newLeft := match side with
      | MatchSide.left => some id
      | MatchSide.right => st.selLeft
    let newRight := match side with
      | MatchSide.right => some id
      | MatchSide.left => st.selRight
    match newLeft, newRight with
    | some l, some r =>
      if l = "" ∨ r = "" then (⟨st.matched, newLeft, newRight⟩, false)
      else
        match pairs.find? (fun p => p.wordId == l && p.definition == r) with
        | some _ =>
          let newMatched := st.matched ++ [l, r]
          (⟨newMatched, none, none⟩, newMatched.length == pairs.length * 2)
        | none => (⟨st.matched, none, none⟩, false)
    | nl, nr => (⟨st.matched, nl, nr⟩, false)

/-- Runs the matching machine from its initial state (empty confirmed set,
no pending selections) over a sequence of clicks, keeping the state. -/
def runMatch (pairs : List MatchPair)
    (inputs : List (String × MatchSide)) : MatchState :=
  inputs.foldl (fun st inp => (handleMatch pairs st inp.1 inp.2).1)
    ⟨[], none, none⟩

/-- Arcade (Word Rush) per-round mutable state used by the scoring logic. -/
structure ArcadeState where
  score : Int
  streak : Nat
  lives : Int
  timeLeft : ℚ
deriving DecidableEq

/-- Mirrors the newMaxTime computation of prepareRound: the round time
budget for round index i. -/
def roundMaxTime (index : Nat) : Int :=
  max 3 (10 - ((index / 3 : Nat) : Int))

/-- Mirrors the points computation of the arcade handleAnswer on a hit:
base 100 plus the ceiling of remaining time times 10 plus streak times 5. -/
def wordRushPoints (st : ArcadeState) : Int :=
  100 + Int.ceil (st.timeLeft * 10) + (st.streak : Int) * 5

/-- Mirrors the state update of the arcade handleAnswer: a selection equal
to the current word Vietnamese definition adds the points and increments
the streak; anything else costs a life and resets the streak. -/
def wordRushAnswer (currentWord : VocabularyItem) (st : ArcadeState)
    (selected : Option String) : ArcadeState :=
  if selected = some currentWord.vietnameseDefinition then
    ⟨st.score + wordRushPoints st, st.streak + 1, st.lives, st.timeLeft⟩
  else
    ⟨st.score, 0, st.lives - 1, st.timeLeft⟩

/-- Identity shuffle, one concrete realization of the random shuffle (a JS
sort with a random comparator can leave the array unchanged). -/
def idShuffle : Nat → List String → List String := fun _ l => l

/-- Concrete five-item vocabulary set used by the witnesses. -/
def sampleVocab : List VocabularyItem :=
  [ ⟨"v1", "cat", "kaet", "a small pet animal", "con mèo", "noun",
      "The cat sleeps.", "The _______ sleeps.", [], "cat"⟩,
    ⟨"v2", "dog", "dog", "a loyal pet animal", "con chó", "noun",
      "The dog barks.", "The _______ barks.", [], "dog"⟩,
    ⟨"v3", "house", "haus", "a building to live in", "ngôi nhà", "noun",
      "The house is big.", "The _______ is big.", [], "house"⟩,
    ⟨"v4", "tree", "tri", "a tall plant", "cái cây", "noun",
      "The tree is green.", "The _______ is green.", [], "tree"⟩,
    ⟨"v5", "book", "buk", "pages to read", "quyển sách", "noun",
      "The book is new.", "The _______ is new.", [], "book"⟩ ]

/-- Two-item vocabulary set whose items share one Vietnamese definition,
used to exhibit duplicated options. -/
def dupDefVocab : List VocabularyItem :=
  [ ⟨"a1", "cat", "", "", "con mèo", "", "", "", [], ""⟩,
    ⟨"a2", "dog", "", "", "con mèo", "", "", "", [], ""⟩ ]

/-- Concrete fill-blank exercise targeting the first sample item. -/
def fbExample : Exercise :=
  ⟨"fb-v1", ExerciseType.FillBlank, "v1", "The _______ sleeps.",
    none, none, none⟩

/-- Concrete guess-meaning exercise targeting the first sample item. -/
def gmExample : Exercise :=
  ⟨"gm-v1", ExerciseType.GuessMeaning, "v1", "cat",
    some ["con mèo", "con chó", "ngôi nhà", "cái cây"], some 0, none⟩

/-- Concrete guess-word exercise whose target reference matches no sample
item. -/
def orphanExample : Exercise :=
  ⟨"gw-zz", ExerciseType.GuessWord, "zz", "con mèo", none, none, none⟩

/-- Single declared matching pair used by the matching-machine witness. -/
def matchPairsW : List MatchPair := [⟨"w1", "d1"⟩]

/-- Concrete arcade state used by the scoring witness. -/
def arcadeSt0 : ArcadeState := ⟨0, 2, 3, 73 / 10⟩

/-- First sample vocabulary item, named for use in the witnesses. -/
def sampleCat : VocabularyItem :=
  ⟨"v1", "cat", "kaet", "a small pet animal", "con mèo", "noun",
    "The cat sleeps.", "The _______ sleeps.", [], "cat"⟩

/-- Flattening of a list of confirmed pairs into the matched-ids list, in
confirmation order: wordId then definition for each pair. -/
def pairFlat : List MatchPair → List String
  | [] => []
  | p :: l => p.wordId :: p.definition :: pairFlat l

/-- A pending selection is sound when it is not an already-confirmed id. -/
def selOk (matched : List String) : Option String → Prop
  | none => True
  | some x => x ∉ matched

/-- Invariant of the matching machine: the matched list is the flattening
of a list of declared pairs with pairwise-distinct wordIds, and each
pending selection is not yet confirmed. -/
def matchInv (pairs : List MatchPair) (st : MatchState) : Prop :=
  (∃ l : List MatchPair, (∀ p ∈ l, p ∈ pairs)
      ∧ st.matched = pairFlat l
      ∧ (l.map MatchPair.wordId).Nodup)
  ∧ selOk st.matched st.selLeft ∧ selOk st.matched st.selRight

/-- C4: for a fill-blank exercise with a findable target item, the answer
is marked correct exactly when the submitted string, lower-cased and
trimmed, equals the target headword lower-cased and trimmed. -/
theorem evalAnswer_fillBlank_iff (vocab : List VocabularyItem)
    (ex : Exercise) (answer : String) (tv : VocabularyItem)
    (hty : ex.type = ExerciseType.FillBlank)
    (hfind : vocab.find? (fun v => v.id == ex.targetWordId) = some tv) :
    evalAnswer vocab ex answer = true
      ↔ lowerTrim answer = lowerTrim tv.word := by
  simp [evalAnswer, hty, hfind]

/-- Witness for C4: the submission " Cat " is accepted for the headword
"cat". -/
theorem evalAnswer_fillBlank_iff_witness :
    evalAnswer sampleVocab fbExample " Cat " = true :=
  (evalAnswer_fillBlank_iff sampleVocab fbExample " Cat " sampleCat rfl
    (by decide)).mpr (by decide)

/-- C5: for guess-meaning, listening and guess-word exercises with a
findable target item, correctness is exact string equality against the
target Vietnamese definition (guess-meaning, listening) or headword
(guess-word); no trimming or case folding is applied, so any submission
differing from the reference string, even only in trailing punctuation, is
marked incorrect. -/
theorem evalAnswer_exact_match (vocab : List VocabularyItem) (ex : Exercise)
    (answer : String) (tv : VocabularyItem)
    (hfind : vocab.find? (fun v => v.id == ex.targetWordId) = some tv) :
    ((ex.type = ExerciseType.GuessMeaning ∨ ex.type = ExerciseType.Listening) →
      (evalAnswer vocab ex answer = true ↔ answer = tv.vietnameseDefinition))
    ∧ (ex.type = ExerciseType.GuessWord →
      (evalAnswer vocab ex answer = true ↔ answer = tv.word)) := by
  constructor
  · rintro (hty | hty) <;> simp [evalAnswer, hty, hfind]
  · intro hty; simp [evalAnswer, hty, hfind]

/-- Witness for C5: the exact Vietnamese definition is accepted and the
same definition with a trailing period is rejected. -/
theorem evalAnswer_exact_match_witness :
    evalAnswer sampleVocab gmExample "con mèo" = true
    ∧ evalAnswer sampleVocab gmExample "con mèo." = false := by
  have h1 := evalAnswer_exact_match sampleVocab gmExample "con mèo" sampleCat
    (by decide)
  have h2 := evalAnswer_exact_match sampleVocab gmExample "con mèo." sampleCat
    (by decide)
  refine ⟨(h1.1 (Or.inl rfl)).mpr rfl, ?_⟩
  cases hev : evalAnswer sampleVocab gmExample "con mèo."
  · rfl
  · exact absurd ((h2.1 (Or.inl rfl)).mp hev) (by decide)

/-- C6 amended: for every non-flashcard exercise other than matching whose
target reference matches no vocabulary item, evaluation returns false for
every submitted answer; evalAnswer is total, so evaluation never throws.
The matching kind is excluded because its sentinel COMPLETE answer is
accepted without consulting the target lookup. -/
theorem evalAnswer_missing_target (vocab : List VocabularyItem)
    (ex : Exercise) (answer : String)
    (h1 : ex.type ≠ ExerciseType.Flashcard)
    (h2 : ex.type ≠ ExerciseType.Matching)
    (hfind : vocab.find? (fun v => v.id == ex.targetWordId) = none) :
    evalAnswer vocab ex answer = false := by
  cases hty : ex.type
  case Flashcard => exact absurd hty h1
  case Matching => exact absurd hty h2
  all_goals simp [evalAnswer, hty, hfind]

/-- Witness for C6 amended: a guess-word exercise with an unmatched target
reference evaluates to false. -/
theorem evalAnswer_missing_target_witness :
    evalAnswer sampleVocab orphanExample "con mèo" = false :=
  evalAnswer_missing_target sampleVocab orphanExample "con mèo"
    (by decide) (by decide) (by decide)

/-- Counterexample for C6 as stated: the matching exercise generated for
the sample set has the sentinel target reference "all", which matches no
vocabulary item, yet the evaluator returns true for the COMPLETE answer. -/
theorem evalAnswer_matching_missing_target_cex :
    sampleVocab.find?
        (fun v => v.id == (matchingExercise sampleVocab).targetWordId) = none
    ∧ (matchingExercise sampleVocab).type ≠ ExerciseType.Flashcard
    ∧ evalAnswer sampleVocab (matchingExercise sampleVocab) "COMPLETE"
        = true := by
  refine ⟨by decide, by decide, by decide⟩

/-- C8: the arcade round time budget equals max(3, 10 - floor(i / 3)), is
monotonically non-increasing in the round index, and never drops below 3
time units. -/
theorem roundMaxTime_formula_mono (i : Nat) :
    roundMaxTime i = max 3 (10 - ((i / 3 : Nat) : Int))
    ∧ roundMaxTime (i + 1) ≤ roundMaxTime i
    ∧ 3 ≤ roundMaxTime i := by
  refine ⟨rfl, ?_, le_max_left _ _⟩
  have h : i / 3 ≤ (i + 1) / 3 := Nat.div_le_div_right (Nat.le_succ i)
  have h2 : (10 : Int) - (((i + 1) / 3 : Nat) : Int)
      ≤ 10 - ((i / 3 : Nat) : Int) := by
    have h3 : ((i / 3 : Nat) : Int) ≤ (((i + 1) / 3 : Nat) : Int) :=
      Int.ofNat_le.mpr h
    omega
  exact max_le_max le_rfl h2

/-- C9: a correct arcade answer adds exactly
100 + ceil(timeLeft * 10) + 5 * streak points and increments the streak. -/
theorem wordRushAnswer_hit_scoring (w : VocabularyItem) (st : ArcadeState)
    (sel : Option String) (h : sel = some w.vietnameseDefinition) :
    (wordRushAnswer w st sel).score
        = st.score + (100 + Int.ceil (st.timeLeft * 10) + 5 * (st.streak : Int))
    ∧ (wordRushAnswer w st sel).streak = st.streak + 1 := by
  subst h
  refine ⟨?_, ?_⟩
  · simp [wordRushAnswer, wordRushPoints]
    ring
  · simp [wordRushAnswer]

/-- Witness for C9: from score 0, streak 2 and 7.3 time units left, a hit
is worth 100 + 73 + 10 = 183 points and the streak becomes 3. -/
theorem wordRushAnswer_hit_scoring_witness :
    (wordRushAnswer sampleCat arcadeSt0 (some "con mèo")).score = 183
    ∧ (wordRushAnswer sampleCat arcadeSt0 (some "con mèo")).streak = 3 := by
  have h := wordRushAnswer_hit_scoring sampleCat arcadeSt0 (some "con mèo") rfl
  constructor
  · rw [h.1]
    show (0 : Int) + (100 + Int.ceil ((73 / 10 : ℚ) * 10) + 5 * (2 : Int)) = 183
    norm_num
  · rw [h.2]
    rfl

/-- Folding the per-answer experience points from an arbitrary starting
total is the starting total plus the fold from zero. -/
theorem sessionXp_foldl_init (l : List Exercise) (n : Nat) :
    l.foldl (fun xp ex => xp + answerXp ex true) n
      = n + sessionXpAllCorrect l := by
  induction l generalizing n with
  | nil => simp [sessionXpAllCorrect]
  | cons e t ih =>
    rw [sessionXpAllCorrect, List.foldl_cons, List.foldl_cons, ih, ih]
    omega

/-- Incremental experience points split over list concatenation. -/
theorem sessionXp_append (l1 l2 : List Exercise) :
    sessionXpAllCorrect (l1 ++ l2)
      = sessionXpAllCorrect l1 + sessionXpAllCorrect l2 := by
  rw [sessionXpAllCorrect, List.foldl_append, sessionXp_foldl_init]
  rfl

/-- Each vocabulary item contributes 40 incremental experience points to an
all-correct session: nothing for its flashcard, 10 for each of its four
evaluated exercises. -/
theorem sessionXp_itemExercises (vocab : List VocabularyItem)
    (shVN shEN : List String → List String) (item : VocabularyItem) :
    sessionXpAllCorrect (itemExercises vocab shVN shEN item) = 40 := rfl

/-- Incremental experience points of the per-item part of the generated
sequence: 40 for each vocabulary item. -/
theorem sessionXp_createExercisesAux (sh : Nat → List String → List String)
    (vocab : List VocabularyItem) :
    ∀ (k : Nat) (rest : List VocabularyItem),
      sessionXpAllCorrect (createExercisesAux sh vocab k rest)
        = 40 * rest.length := by
  intro k rest
  induction rest generalizing k with
  | nil => rfl
  | cons item t ih =>
    rw [createExercisesAux, sessionXp_append, sessionXp_itemExercises,
      ih (k + 1), List.length_cons]
    ring

/-- Length of the per-item part of the generated sequence. -/
theorem length_createExercisesAux (sh : Nat → List String → List String)
    (vocab : List VocabularyItem) :
    ∀ (k : Nat) (rest : List VocabularyItem),
      (createExercisesAux sh vocab k rest).length = 5 * rest.length := by
  intro k rest
  induction rest generalizing k with
  | nil => rfl
  | cons item t ih =>
    rw [createExercisesAux, List.length_append, ih (k + 1), List.length_cons]
    show 5 + 5 * t.length = 5 * (t.length + 1)
    ring

/-- C3: over the 26 exercises generated from a 5-item set, answering every
evaluated exercise correctly on the first attempt adds exactly 210
experience points to UserState (10 per non-flashcard answer, including the
matching exercise, and nothing for the 5 flashcards), while the
session-completion banner displays length times 10 = 260; the two figures
differ. -/
theorem sessionXp_total (sh : Nat → List String → List String)
    (vocab : List VocabularyItem) (h : vocab.length = 5) :
    sessionXpAllCorrect (createExercises sh vocab) = 210
    ∧ sessionSummaryXp (createExercises sh vocab) = 260
    ∧ sessionXpAllCorrect (createExercises sh vocab)
        ≠ sessionSummaryXp (createExercises sh vocab) := by
  have h1 : sessionXpAllCorrect (createExercises sh vocab) = 210 := by
    rw [createExercises, sessionXp_append, sessionXp_createExercisesAux, h]
    rfl
  have h2 : sessionSummaryXp (createExercises sh vocab) = 260 := by
    rw [sessionSummaryXp, createExercises, List.length_append,
      length_createExercisesAux, h]
    rfl
  exact ⟨h1, h2, by rw [h1, h2]; decide⟩

/-- Witness for C3 at the concrete sample vocabulary set. -/
theorem sessionXp_total_witness :
    sessionXpAllCorrect (createExercises idShuffle sampleVocab) = 210
    ∧ sessionSummaryXp (createExercises idShuffle sampleVocab) = 260
    ∧ sessionXpAllCorrect (createExercises idShuffle sampleVocab)
        ≠ sessionSummaryXp (createExercises idShuffle sampleVocab) :=
  sessionXp_total idShuffle sampleVocab rfl

/-- Kind and target reference of every generated per-item exercise, in
input order: each item yields a flashcard, guess-meaning, guess-word,
fill-blank and listening exercise aimed at that item. -/
theorem map_typeTarget_createExercisesAux
    (sh : Nat → List String → List String) (vocab : List VocabularyItem) :
    ∀ (k : Nat) (rest : List VocabularyItem),
      (createExercisesAux sh vocab k rest).map
          (fun e => (e.type, e.targetWordId))
        = rest.flatMap (fun it =>
            [(ExerciseType.Flashcard, it.id), (ExerciseType.GuessMeaning, it.id),
             (ExerciseType.GuessWord, it.id), (ExerciseType.FillBlank, it.id),
             (ExerciseType.Listening, it.id)]) := by
  intro k rest
  induction rest generalizing k with
  | nil => rfl
  | cons item t ih =>
    rw [createExercisesAux, List.map_append, ih (k + 1), List.flatMap_cons]
    rfl

/-- Counting the per-item exercises by a predicate that selects `n` of the
five exercises of every block. -/
theorem countP_createExercisesAux (sh : Nat → List String → List String)
    (vocab : List VocabularyItem) (f : Exercise → Bool) (n : Nat)
    (hb : ∀ shVN shEN item,
      (itemExercises vocab shVN shEN item).countP f = n) :
    ∀ (k : Nat) (rest : List VocabularyItem),
      (createExercisesAux sh vocab k rest).countP f = n * rest.length := by
  intro k rest
  induction rest generalizing k with
  | nil => simp [createExercisesAux]
  | cons item t ih =>
    rw [createExercisesAux, List.countP_append, hb, ih (k + 1),
      List.length_cons]
    ring

/-- C1: a 5-item vocabulary set yields exactly 26 exercises — for each
item, in input order, a flashcard, guess-meaning, guess-word, fill-blank
and listening exercise (so each of those five kinds occurs 5 times),
followed by exactly one matching exercise whose pairs are the
(identifier, Vietnamese-definition) tuples of all 5 items and whose target
reference is the sentinel "all". -/
theorem createExercises_shape (sh : Nat → List String → List String)
    (vocab : List VocabularyItem) (h : vocab.length = 5) :
    (createExercises sh vocab).length = 26
    ∧ (createExercises sh vocab).map (fun e => (e.type, e.targetWordId))
        = vocab.flatMap (fun it =>
            [(ExerciseType.Flashcard, it.id), (ExerciseType.GuessMeaning, it.id),
             (ExerciseType.GuessWord, it.id), (ExerciseType.FillBlank, it.id),
             (ExerciseType.Listening, it.id)])
          ++ [(ExerciseType.Matching, "all")]
    ∧ (∀ t, t ≠ ExerciseType.Matching →
        ((createExercises sh vocab).filter (fun e => e.type = t)).length = 5)
    ∧ ((createExercises sh vocab).filter
        (fun e => e.type = ExerciseType.Matching)).length = 1
    ∧ (createExercises sh vocab).getLast? = some (matchingExercise vocab)
    ∧ (matchingExercise vocab).targetWordId = "all"
    ∧ (matchingExercise vocab).matchingPairs
        = some (vocab.map (fun v => ⟨v.id, v.vietnameseDefinition⟩)) := by
  refine ⟨?_, ?_, ?_, ?_, ?_, rfl, rfl⟩
  · rw [createExercises, List.length_append, length_createExercisesAux, h]
    rfl
  · rw [createExercises, List.map_append, map_typeTarget_createExercisesAux]
    rfl
  · intro t ht
    have hb : ∀ shVN shEN item, ((itemExercises vocab shVN shEN item).countP
        (fun e => decide (e.type = t))) = 1 := by
      intro shVN shEN item
      cases t
      case Matching => exact absurd rfl ht
      all_goals rfl
    have hm : ((matchingExercise vocab).type = t) = False :=
      eq_false (fun hh => ht hh.symm)
    rw [← List.countP_eq_length_filter, createExercises, List.countP_append,
      countP_createExercisesAux sh vocab _ 1 hb, h]
    simp [List.countP_cons, hm, matchingExercise]
    exact fun hh => ht hh.symm
  · rw [← List.countP_eq_length_filter, createExercises, List.countP_append,
      countP_createExercisesAux sh vocab
        (fun e => decide (e.type = ExerciseType.Matching)) 0
        (fun shVN shEN item => rfl), h]
    rfl
  · rw [createExercises, List.getLast?_concat]

/-- Witness for C1 at the concrete sample vocabulary set: the generated
sequence has length 26 and ends in the grouped matching exercise. -/
theorem createExercises_shape_witness :
    (createExercises idShuffle sampleVocab).length = 26
    ∧ (createExercises idShuffle sampleVocab).getLast?
        = some (matchingExercise sampleVocab) :=
  ⟨(createExercises_shape idShuffle sampleVocab rfl).1,
    (createExercises_shape idShuffle sampleVocab rfl).2.2.2.2.1⟩

/-- Positions 5i+1 and 5i+4 of the per-item part of the generated sequence
hold the guess-meaning and the listening exercise of item i, and the
listening exercise carries the very same shuffled option list and correct
index as the guess-meaning exercise, because the source computes optionsVN
once per item and reuses it. -/
theorem get?_createExercisesAux (sh : Nat → List String → List String)
    (vocab : List VocabularyItem) :
    ∀ (rest : List VocabularyItem) (k i : Nat), i < rest.length →
      ∃ gm ls,
        (createExercisesAux sh vocab k rest).get? (5 * i + 1) = some gm
        ∧ (createExercisesAux sh vocab k rest).get? (5 * i + 4) = some ls
        ∧ gm.type = ExerciseType.GuessMeaning
        ∧ ls.type = ExerciseType.Listening
        ∧ gm.targetWordId = ls.targetWordId
        ∧ ls.options = gm.options
        ∧ ls.correctOptionIndex = gm.correctOptionIndex := by
  intro rest
  induction rest with
  | nil => intro k i hi; exact absurd hi (by simp)
  | cons item t ih =>
    intro k i hi
    cases i with
    | zero => exact ⟨_, _, rfl, rfl, rfl, rfl, rfl, rfl, rfl⟩
    | succ j =>
      have hj : j < t.length := by
        simpa [Nat.succ_lt_succ_iff] using hi
      obtain ⟨gm, ls, h1, h2, h3, h4, h5, h6, h7⟩ := ih (k + 1) j hj
      have hlen : (itemExercises vocab (sh (2 * k)) (sh (2 * k + 1))
          item).length = 5 := rfl
      refine ⟨gm, ls, ?_, ?_, h3, h4, h5, h6, h7⟩
      · rw [createExercisesAux, List.get?_append_right (by omega)]
        rw [hlen]
        have harith : 5 * (j + 1) + 1 - 5 = 5 * j + 1 := by omega
        rw [harith]
        exact h1
      · rw [createExercisesAux, List.get?_append_right (by omega)]
        rw [hlen]
        have harith : 5 * (j + 1) + 4 - 5 = 5 * j + 4 := by omega
        rw [harith]
        exact h2

/-- C10: for every vocabulary item, the listening exercise generated for it
has an option list element-for-element identical to the guess-meaning
exercise generated for the same item, with the same correct index. -/
theorem listening_reuses_guessMeaning_options
    (sh : Nat → List String → List String) (vocab : List VocabularyItem)
    (i : Nat) (h : i < vocab.length) :
    ∃ gm ls,
      (createExercises sh vocab).get? (5 * i + 1) = some gm
      ∧ (createExercises sh vocab).get? (5 * i + 4) = some ls
      ∧ gm.type = ExerciseType.GuessMeaning
      ∧ ls.type = ExerciseType.Listening
      ∧ gm.targetWordId = ls.targetWordId
      ∧ ls.options = gm.options
      ∧ ls.correctOptionIndex = gm.correctOptionIndex := by
  obtain ⟨gm, ls, h1, h2, h3, h4, h5, h6, h7⟩ :=
    get?_createExercisesAux sh vocab vocab 0 i h
  have hlen := length_createExercisesAux sh vocab 0 vocab
  refine ⟨gm, ls, ?_, ?_, h3, h4, h5, h6, h7⟩
  · rw [createExercises, List.get?_append (by omega)]
    exact h1
  · rw [createExercises, List.get?_append (by omega)]
    exact h2

/-- Witness for C10 at the first sample item. -/
theorem listening_reuses_guessMeaning_options_witness :
    ∃ gm ls,
      (createExercises idShuffle sampleVocab).get? (5 * 0 + 1) = some gm
      ∧ (createExercises idShuffle sampleVocab).get? (5 * 0 + 4) = some ls
      ∧ gm.type = ExerciseType.GuessMeaning
      ∧ ls.type = ExerciseType.Listening
      ∧ gm.targetWordId = ls.targetWordId
      ∧ ls.options = gm.options
      ∧ ls.correctOptionIndex = gm.correctOptionIndex :=
  listening_reuses_guessMeaning_options idShuffle sampleVocab 0 (by decide)

/-- When mapping over a list is duplicate-free, two members with equal
images are equal. -/
theorem eq_of_map_nodup {α β : Type} {f : α → β} :
    ∀ {l : List α}, (l.map f).Nodup →
      ∀ {a b : α}, a ∈ l → b ∈ l → f a = f b → a = b := by
  intro l
  induction l with
  | nil => intro _ a b ha; cases ha
  | cons c t ih =>
    intro hl a b ha hb hf
    rw [List.map_cons, List.nodup_cons] at hl
    rcases List.mem_cons.mp ha with rfl | ha2
    · rcases List.mem_cons.mp hb with rfl | hb2
      · rfl
      · exfalso
        apply hl.1
        rw [hf]
        exact List.mem_map_of_mem f hb2
    · rcases List.mem_cons.mp hb with rfl | hb2
      · exfalso
        apply hl.1
        rw [← hf]
        exact List.mem_map_of_mem f ha2
      · exact ih hl.2 ha2 hb2 hf

/-- The entry at the index returned by indexOf is the looked-up element,
whenever that element occurs in the list. -/
theorem get?_indexOf {l : List String} {a : String} (h : a ∈ l) :
    l.get? (l.indexOf a) = some a := by
  induction l with
  | nil => cases h
  | cons b t ih =>
    cases hbe : b == a
    · have h2 : a ∈ t := by
        rcases List.mem_cons.mp h with rfl | h2
        · simp at hbe
        · exact h2
      rw [List.indexOf_cons, hbe]
      simpa using ih h2
    · rw [List.indexOf_cons, hbe]
      simpa using (eq_of_beq hbe)

/-- Counting an element is invariant under permutation. -/
theorem perm_count_eq {l1 l2 : List String} (h : l1.Perm l2) (a : String) :
    l1.count a = l2.count a :=
  h.countP_eq (fun x => x == a)

/-- Core distractor fact: when the projection f is duplicate-free over the
vocabulary, the option list built from f item and the first three f-values
of the other items, then shuffled by any permutation, contains f item
exactly once, and indexOf finds an occurrence of it. -/
theorem count_shuffled_options {sh1 : List String → List String}
    (hperm : ∀ l, (sh1 l).Perm l)
    (vocab : List VocabularyItem) (item : VocabularyItem)
    (f : VocabularyItem → String)
    (hnd : (vocab.map f).Nodup) (hitem : item ∈ vocab) :
    (sh1 (f item ::
        ((vocab.filter (fun v => v.id != item.id)).map f).take 3)).count
        (f item) = 1
    ∧ (sh1 (f item ::
        ((vocab.filter (fun v => v.id != item.id)).map f).take 3)).get?
        ((sh1 (f item ::
          ((vocab.filter (fun v => v.id != item.id)).map f).take 3)).indexOf
          (f item)) = some (f item) := by
  set distractors :=
    ((vocab.filter (fun v => v.id != item.id)).map f).take 3 with hd
  have h0 : f item ∉ distractors := by
    intro hmem
    obtain ⟨v, hv, hfv⟩ := List.mem_map.mp (List.mem_of_mem_take hmem)
    have hv2 := (List.mem_filter.mp hv).1
    have hvid := (List.mem_filter.mp hv).2
    have hveq : v = item := eq_of_map_nodup hnd hv2 hitem hfv
    subst hveq
    simp at hvid
  have hcount0 : distractors.count (f item) = 0 :=
    List.count_eq_zero.mpr h0
  have hperm2 := hperm (f item :: distractors)
  have hc : (sh1 (f item :: distractors)).count (f item) = 1 := by
    rw [perm_count_eq hperm2, List.count_cons_self, hcount0]
  have hmem3 : f item ∈ sh1 (f item :: distractors) :=
    hperm2.mem_iff.mpr (List.mem_cons_self _ _)
  exact ⟨hc, get?_indexOf hmem3⟩

/-- Every exercise of the per-item part of the generated sequence belongs
to the block of five exercises of some item of the processed tail, built
with some pair of shuffle draws. -/
theorem mem_createExercisesAux (sh : Nat → List String → List String)
    (vocab : List VocabularyItem) :
    ∀ (k : Nat) (rest : List VocabularyItem) {ex : Exercise},
      ex ∈ createExercisesAux sh vocab k rest →
      ∃ item m, item ∈ rest
        ∧ ex ∈ itemExercises vocab (sh (2 * m)) (sh (2 * m + 1)) item := by
  intro k rest
  induction rest generalizing k with
  | nil => intro ex hx; simp [createExercisesAux] at hx
  | cons item t ih =>
    intro ex hx
    rw [createExercisesAux, List.mem_append] at hx
    rcases hx with hx | hx
    · exact ⟨item, k, List.mem_cons_self _ _, hx⟩
    · obtain ⟨it2, m, hmem, hx2⟩ := ih (k + 1) hx
      exact ⟨it2, m, List.mem_cons_of_mem _ hmem, hx2⟩

/-- C2 amended: over any vocabulary set whose Vietnamese definitions are
pairwise distinct and whose headwords are pairwise distinct, every
options-bearing exercise (guess-meaning, listening, guess-word) generated
by createExercises has an option list containing the correct answer of its
target item exactly once, and correctOptionIndex points at an occurrence
of that correct answer in the post-shuffle option list.  The hypothesis
hsh states that each shuffle draw permutes its input, which is what the
randomized JS sort guarantees. -/
theorem options_contain_correct_answer
    (sh : Nat → List String → List String) (vocab : List VocabularyItem)
    (hsh : ∀ n l, (sh n l).Perm l)
    (hdef : (vocab.map (fun v => v.vietnameseDefinition)).Nodup)
    (hword : (vocab.map (fun v => v.word)).Nodup) :
    ∀ ex ∈ createExercises sh vocab,
      ((ex.type = ExerciseType.GuessMeaning
          ∨ ex.type = ExerciseType.Listening) →
        ∃ item opts idx, item ∈ vocab ∧ ex.targetWordId = item.id
          ∧ ex.options = some opts ∧ ex.correctOptionIndex = some idx
          ∧ opts.count item.vietnameseDefinition = 1
          ∧ opts.get? idx = some item.vietnameseDefinition)
      ∧ (ex.type = ExerciseType.GuessWord →
        ∃ item opts idx, item ∈ vocab ∧ ex.targetWordId = item.id
          ∧ ex.options = some opts ∧ ex.correctOptionIndex = some idx
          ∧ opts.count item.word = 1
          ∧ opts.get? idx = some item.word) := by
  intro ex hex
  rw [createExercises, List.mem_append] at hex
  rcases hex with hex | hex
  · obtain ⟨item, m, hitem, hx⟩ := mem_createExercisesAux sh vocab 0 vocab hex
    have hVN := count_shuffled_options (hsh (2 * m)) vocab item
      (fun v => v.vietnameseDefinition) hdef hitem
    have hEN := count_shuffled_options (hsh (2 * m + 1)) vocab item
      (fun v => v.word) hword hitem
    simp only [itemExercises, List.mem_cons, List.not_mem_nil, or_false]
      at hx
    rcases hx with rfl | rfl | rfl | rfl | rfl
    · constructor
      · intro hty; rcases hty with hty | hty <;> simp at hty
      · intro hty; simp at hty
    · constructor
      · intro _
        exact ⟨item, _, _, hitem, rfl, rfl, rfl, hVN.1, hVN.2⟩
      · intro hty; simp at hty
    · constructor
      · intro hty; rcases hty with hty | hty <;> simp at hty
      · intro _
        exact ⟨item, _, _, hitem, rfl, rfl, rfl, hEN.1, hEN.2⟩
    · constructor
      · intro hty; rcases hty with hty | hty <;> simp at hty
      · intro hty; simp at hty
    · constructor
      · intro _
        exact ⟨item, _, _, hitem, rfl, rfl, rfl, hVN.1, hVN.2⟩
      · intro hty; simp at hty
  · rw [List.mem_singleton] at hex
    subst hex
    constructor
    · intro hty; rcases hty with hty | hty <;> simp [matchingExercise] at hty
    · intro hty; simp [matchingExercise] at hty

/-- Witness for C2 amended: the guess-meaning exercise of the first sample
item carries its Vietnamese definition exactly once with a correct index
pointing at it. -/
theorem options_contain_correct_answer_witness :
    ∃ item opts idx, item ∈ sampleVocab
      ∧ gmExample.targetWordId = item.id
      ∧ gmExample.options = some opts
      ∧ gmExample.correctOptionIndex = some idx
      ∧ opts.count item.vietnameseDefinition = 1
      ∧ opts.get? idx = some item.vietnameseDefinition :=
  (options_contain_correct_answer idShuffle sampleVocab
    (fun _ l => List.Perm.refl l) (by decide) (by decide) gmExample
    (by decide)).1 (Or.inl rfl)

/-- Counterexample for C2 as stated: with two items sharing the Vietnamese
definition "con mèo", the guess-meaning exercise generated for the first
item (position 1 of the sequence, shown here under the identity shuffle,
but any permutation preserves the count) has the correct answer twice in
its option list, not exactly once. -/
theorem duplicate_definition_options_cex :
    ((createExercises idShuffle dupDefVocab).get? 1).map Exercise.type
        = some ExerciseType.GuessMeaning
    ∧ ((createExercises idShuffle dupDefVocab).get? 1).map
        Exercise.targetWordId = some "a1"
    ∧ (dupDefVocab.map (fun v => (v.id, v.vietnameseDefinition))).get? 0
        = some ("a1", "con mèo")
    ∧ ((createExercises idShuffle dupDefVocab).get? 1).map Exercise.options
        = some (some ["con mèo", "con mèo"])
    ∧ (["con mèo", "con mèo"] : List String).count "con mèo" = 2 :=
  ⟨rfl, rfl, rfl, rfl, by decide⟩

/-- Flattening distributes over concatenation of pair lists. -/
theorem pairFlat_append (l1 l2 : List MatchPair) :
    pairFlat (l1 ++ l2) = pairFlat l1 ++ pairFlat l2 := by
  induction l1 with
  | nil => rfl
  | cons p t ih => simp [pairFlat, ih]

/-- Length of the flattening: two ids per confirmed pair. -/
theorem length_pairFlat (l : List MatchPair) :
    (pairFlat l).length = 2 * l.length := by
  induction l with
  | nil => rfl
  | cons p t ih => simp [pairFlat, ih]; omega

/-- The wordId of a confirmed pair is in the flattening. -/
theorem wordId_mem_pairFlat :
    ∀ {l : List MatchPair} {p : MatchPair}, p ∈ l → p.wordId ∈ pairFlat l := by
  intro l
  induction l with
  | nil => intro p h; cases h
  | cons q t ih =>
    intro p h
    rcases List.mem_cons.mp h with rfl | h2
    · simp [pairFlat]
    · simp only [pairFlat, List.mem_cons]
      exact Or.inr (Or.inr (ih h2))

/-- The definition of a confirmed pair is in the flattening. -/
theorem definition_mem_pairFlat :
    ∀ {l : List MatchPair} {p : MatchPair},
      p ∈ l → p.definition ∈ pairFlat l := by
  intro l
  induction l with
  | nil => intro p h; cases h
  | cons q t ih =>
    intro p h
    rcases List.mem_cons.mp h with rfl | h2
    · simp [pairFlat]
    · simp only [pairFlat, List.mem_cons]
      exact Or.inr (Or.inr (ih h2))

/-- A click on an already-confirmed id leaves the machine unchanged and
submits nothing. -/
theorem handleMatch_mem (pairs : List MatchPair) {st : MatchState}
    {id : String} (h : id ∈ st.matched) (side : MatchSide) :
    handleMatch pairs st id side = (st, false) := by
  simp [handleMatch, h]

/-- A successful match extends a sound confirmed set by the found pair. -/
theorem matchInv_success (pairs : List MatchPair) (m : List String)
    (id r : String) (q : MatchPair) (hid : id ∉ m) (_hr : r ∉ m)
    (hl : ∃ l, (∀ p ∈ l, p ∈ pairs) ∧ m = pairFlat l
      ∧ (l.map MatchPair.wordId).Nodup)
    (hf : pairs.find? (fun p => p.wordId == id && p.definition == r)
      = some q) :
    ∃ l2, (∀ p ∈ l2, p ∈ pairs) ∧ m ++ [id, r] = pairFlat l2
      ∧ (l2.map MatchPair.wordId).Nodup := by
  obtain ⟨l, hlp, hlm, hlnd⟩ := hl
  have hq := List.find?_some hf
  have hqmem := List.mem_of_find?_eq_some hf
  rw [Bool.and_eq_true, beq_iff_eq, beq_iff_eq] at hq
  refine ⟨l ++ [q], ?_, ?_, ?_⟩
  · intro p hp
    rcases List.mem_append.mp hp with hp | hp
    · exact hlp p hp
    · rw [List.mem_singleton] at hp
      subst hp
      exact hqmem
  · simp [pairFlat_append, pairFlat, hlm, hq.1, hq.2]
  · rw [List.map_append]
    have hqw : q.wordId ∉ l.map MatchPair.wordId := by
      intro hmem
      obtain ⟨p, hp, hpw⟩ := List.mem_map.mp hmem
      apply hid
      rw [← hq.1, ← hpw, hlm]
      exact wordId_mem_pairFlat hp
    refine List.Nodup.append hlnd (List.nodup_singleton _) ?_
    intro x hx hx2
    simp only [List.map_cons, List.map_nil, List.mem_singleton] at hx2
    subst hx2
    exact hqw hx

/-- The matching invariant is preserved by every click. -/
theorem matchInv_step (pairs : List MatchPair) (st : MatchState)
    (id : String) (side : MatchSide) (hinv : matchInv pairs st) :
    matchInv pairs (handleMatch pairs st id side).1 := by
  obtain ⟨hL, hsl, hsr⟩ := hinv
  obtain ⟨m, sl, sr⟩ := st
  by_cases hid : id ∈ m
  · rw [handleMatch_mem pairs hid side]
    exact ⟨hL, hsl, hsr⟩
  · cases side with
    | left =>
      cases sr with
      | none =>
        rw [show handleMatch pairs ⟨m, sl, none⟩ id MatchSide.left
            = (⟨m, some id, none⟩, false) from by simp [handleMatch, hid]]
        exact ⟨hL, hid, trivial⟩
      | some r =>
        have hr : r ∉ m := hsr
        by_cases h0 : id = "" ∨ r = ""
        · rw [show handleMatch pairs ⟨m, sl, some r⟩ id MatchSide.left
              = (⟨m, some id, some r⟩, false) from by
                simp [handleMatch, hid, h0]]
          exact ⟨hL, hid, hr⟩
        · cases hf : pairs.find?
              (fun p => p.wordId == id && p.definition == r) with
          | none =>
            rw [show handleMatch pairs ⟨m, sl, some r⟩ id MatchSide.left
                = (⟨m, none, none⟩, false) from by
                  simp [handleMatch, hid, h0, hf]]
            exact ⟨hL, trivial, trivial⟩
          | some q =>
            rw [show handleMatch pairs ⟨m, sl, some r⟩ id MatchSide.left
                = (⟨m ++ [id, r], none, none⟩,
                    (m ++ [id, r]).length == pairs.length * 2) from by
                  simp [handleMatch, hid, h0, hf]]
            exact ⟨matchInv_success pairs m id r q hid hr hL hf,
              trivial, trivial⟩
    | right =>
      cases sl with
      | none =>
        rw [show handleMatch pairs ⟨m, none, sr⟩ id MatchSide.right
            = (⟨m, none, some id⟩, false) from by simp [handleMatch, hid]]
        exact ⟨hL, trivial, hid⟩
      | some l =>
        have hlm : l ∉ m := hsl
        by_cases h0 : l = "" ∨ id = ""
        · rw [show handleMatch pairs ⟨m, some l, sr⟩ id MatchSide.right
              = (⟨m, some l, some id⟩, false) from by
                simp [handleMatch, hid, h0]]
          exact ⟨hL, hlm, hid⟩
        · cases hf : pairs.find?
              (fun p => p.wordId == l && p.definition == id) with
          | none =>
            rw [show handleMatch pairs ⟨m, some l, sr⟩ id MatchSide.right
                = (⟨m, none, none⟩, false) from by
                  simp [handleMatch, hid, h0, hf]]
            exact ⟨hL, trivial, trivial⟩
          | some q =>
            rw [show handleMatch pairs ⟨m, some l, sr⟩ id MatchSide.right
                = (⟨m ++ [l, id], none, none⟩,
                    (m ++ [l, id]).length == pairs.length * 2) from by
                  simp [handleMatch, hid, h0, hf]]
            exact ⟨matchInv_success pairs m l id q hlm hid hL hf,
              trivial, trivial⟩

/-- The initial matching state satisfies the invariant. -/
theorem matchInv_init (pairs : List MatchPair) :
    matchInv pairs ⟨[], none, none⟩ :=
  ⟨⟨[], by simp, rfl, by simp⟩, trivial, trivial⟩

/-- Every state reached from the initial state satisfies the invariant. -/
theorem matchInv_run (pairs : List MatchPair)
    (inputs : List (String × MatchSide)) :
    matchInv pairs (runMatch pairs inputs) := by
  rw [runMatch]
  have h : ∀ (l : List (String × MatchSide)) (st : MatchState),
      matchInv pairs st →
      matchInv pairs (l.foldl
        (fun s inp => (handleMatch pairs s inp.1 inp.2).1) st) := by
    intro l
    induction l with
    | nil => intro st h; exact h
    | cons inp t ih =>
      intro st h
      exact ih _ (matchInv_step pairs st inp.1 inp.2 h)
  exact h inputs _ (matchInv_init pairs)

/-- When a sound confirmed set flattens to twice the number of declared
pairs, every declared pair has both of its ids confirmed. -/
theorem allPairs_of_flat_full (pairs : List MatchPair) (l : List MatchPair)
    (hlp : ∀ p ∈ l, p ∈ pairs) (hnd : (l.map MatchPair.wordId).Nodup)
    (hlen : (pairFlat l).length = pairs.length * 2) :
    ∀ p ∈ pairs, p.wordId ∈ pairFlat l ∧ p.definition ∈ pairFlat l := by
  have hll : l.length = pairs.length := by
    rw [length_pairFlat] at hlen
    omega
  have hsub : l.map MatchPair.wordId ⊆ pairs.map MatchPair.wordId := by
    intro x hx
    obtain ⟨p, hp, rfl⟩ := List.mem_map.mp hx
    exact List.mem_map_of_mem _ (hlp p hp)
  have hsp := List.subperm_of_subset hnd hsub
  have hperm := hsp.perm_of_length_le (by simp [hll])
  have hndp : (pairs.map MatchPair.wordId).Nodup := hperm.nodup hnd
  intro p hp
  have hw : p.wordId ∈ l.map MatchPair.wordId :=
    hperm.mem_iff.mpr (List.mem_map_of_mem _ hp)
  obtain ⟨q, hq, hqw⟩ := List.mem_map.mp hw
  have hqp : q = p := eq_of_map_nodup hndp (hlp q hq) hp hqw
  subst hqp
  exact ⟨wordId_mem_pairFlat hq, definition_mem_pairFlat hq⟩

/-- From any state satisfying the invariant, a click that submits the
sentinel COMPLETE answer leaves every declared pair confirmed. -/
theorem handleMatch_submit_sound (pairs : List MatchPair) (st : MatchState)
    (id : String) (side : MatchSide) (hinv : matchInv pairs st)
    (hsub : (handleMatch pairs st id side).2 = true) :
    ∀ p ∈ pairs,
      p.wordId ∈ (handleMatch pairs st id side).1.matched
      ∧ p.definition ∈ (handleMatch pairs st id side).1.matched := by
  obtain ⟨hL, hsl, hsr⟩ := hinv
  obtain ⟨m, sl, sr⟩ := st
  by_cases hid : id ∈ m
  · rw [handleMatch_mem pairs hid side] at hsub
    simp at hsub
  · cases side with
    | left =>
      cases sr with
      | none =>
        rw [show handleMatch pairs ⟨m, sl, none⟩ id MatchSide.left
            = (⟨m, some id, none⟩, false) from by
              simp [handleMatch, hid]] at hsub ⊢
        simp at hsub
      | some r =>
        have hr : r ∉ m := hsr
        by_cases h0 : id = "" ∨ r = ""
        · rw [show handleMatch pairs ⟨m, sl, some r⟩ id MatchSide.left
              = (⟨m, some id, some r⟩, false) from by
                simp [handleMatch, hid, h0]] at hsub ⊢
          simp at hsub
        · cases hf : pairs.find?
              (fun p => p.wordId == id && p.definition == r) with
          | none =>
            rw [show handleMatch pairs ⟨m, sl, some r⟩ id MatchSide.left
                = (⟨m, none, none⟩, false) from by
                  simp [handleMatch, hid, h0, hf]] at hsub ⊢
            simp at hsub
          | some q =>
            rw [show handleMatch pairs ⟨m, sl, some r⟩ id MatchSide.left
                = (⟨m ++ [id, r], none, none⟩,
                    (m ++ [id, r]).length == pairs.length * 2) from by
                  simp [handleMatch, hid, h0, hf]] at hsub ⊢
            obtain ⟨l2, hl2p, hl2m, hl2nd⟩ :=
              matchInv_success pairs m id r q hid hr hL hf
            rw [beq_iff_eq, hl2m] at hsub
            intro p hp
            rw [hl2m]
            exact allPairs_of_flat_full pairs l2 hl2p hl2nd hsub p hp
    | right =>
      cases sl with
      | none =>
        rw [show handleMatch pairs ⟨m, none, sr⟩ id MatchSide.right
            = (⟨m, none, some id⟩, false) from by
              simp [handleMatch, hid]] at hsub ⊢
        simp at hsub
      | some l =>
        have hlm : l ∉ m := hsl
        by_cases h0 : l = "" ∨ id = ""
        · rw [show handleMatch pairs ⟨m, some l, sr⟩ id MatchSide.right
              = (⟨m, some l, some id⟩, false) from by
                simp [handleMatch, hid, h0]] at hsub ⊢
          simp at hsub
        · cases hf : pairs.find?
              (fun p => p.wordId == l && p.definition == id) with
          | none =>
            rw [show handleMatch pairs ⟨m, some l, sr⟩ id MatchSide.right
                = (⟨m, none, none⟩, false) from by
                  simp [handleMatch, hid, h0, hf]] at hsub ⊢
            simp at hsub
          | some q =>
            rw [show handleMatch pairs ⟨m, some l, sr⟩ id MatchSide.right
                = (⟨m ++ [l, id], none, none⟩,
                    (m ++ [l, id]).length == pairs.length * 2) from by
                  simp [handleMatch, hid, h0, hf]] at hsub ⊢
            obtain ⟨l2, hl2p, hl2m, hl2nd⟩ :=
              matchInv_success pairs m l id q hlm hid hL hf
            rw [beq_iff_eq, hl2m] at hsub
            intro p hp
            rw [hl2m]
            exact allPairs_of_flat_full pairs l2 hl2p hl2nd hsub p hp

/-- C7: starting from the empty confirmed set, the sentinel COMPLETE
answer is submitted only in a state where every declared pair has been
confirmed (both its wordId and its definition are in the matched list),
and any click on an already-confirmed word or definition leaves the
confirmed set and the pending selections unchanged. -/
theorem matching_complete_sound (pairs : List MatchPair) (id : String)
    (side : MatchSide) :
    (∀ inputs : List (String × MatchSide),
        (handleMatch pairs (runMatch pairs inputs) id side).2 = true →
        ∀ p ∈ pairs,
          p.wordId ∈ (handleMatch pairs (runMatch pairs inputs) id
            side).1.matched
          ∧ p.definition ∈ (handleMatch pairs (runMatch pairs inputs) id
            side).1.matched)
    ∧ ∀ st : MatchState, id ∈ st.matched →
        handleMatch pairs st id side = (st, false) := by
  constructor
  · intro inputs hsub
    exact handleMatch_submit_sound pairs _ id side
      (matchInv_run pairs inputs) hsub
  · intro st hid
    exact handleMatch_mem pairs hid side

/-- Witness for C7: with one declared pair, selecting its word and then
its definition submits COMPLETE with both ids confirmed, and a click on a
confirmed id is a no-op. -/
theorem matching_complete_sound_witness :
    ("w1" ∈ (handleMatch matchPairsW
        (runMatch matchPairsW [("w1", MatchSide.left)]) "d1"
        MatchSide.right).1.matched
      ∧ "d1" ∈ (handleMatch matchPairsW
        (runMatch matchPairsW [("w1", MatchSide.left)]) "d1"
        MatchSide.right).1.matched)
    ∧ handleMatch matchPairsW ⟨["a"], none, none⟩ "a" MatchSide.left
        = (⟨["a"], none, none⟩, false) := by
  constructor
  · exact (matching_complete_sound matchPairsW "d1" MatchSide.right).1
      [("w1", MatchSide.left)] (by decide) ⟨"w1", "d1"⟩ (by decide)
  · exact (matching_complete_sound matchPairsW "a" MatchSide.left).2
      ⟨["a"], none, none⟩ (by decide)
